import Mathlib

/-!  Verification development for the ZeroCloud distributed GPU-compute core.

The definitions below are a shallow embedding of the two services that make up
the compute core:

* `src/app/core/services/gpu-cluster.service.ts` — cluster membership table,
  heartbeat/timeout sweep, and the distribution planner
  (`createDistributionPlan`);
* `src/app/core/services/distributed-inference.service.ts` — the pipeline
  executor's task registry, chunked tensor transfer
  (`sendTensorChunked` / `handleTensorChunk`), checksums, and the
  completion/error/cancel paths.

Modelling conventions:
* JS numbers that hold measurements (TFLOPS, VRAM, load, latency, benchmark
  scores) are modelled as exact rationals `ℚ`; timestamps as `ℕ`
  milliseconds; byte buffers as `List ℕ` (each entry a byte value).
* A JS `Map` is modelled as an insertion-ordered association list with
  unique keys (`assocLookup` / `assocSet` / `assocErase` mirror
  `get` / `set` / `delete`).
* `Date.now()` and other environment reads become explicit parameters.
* Promise continuations are not modelled as closures; instead every
  `resolve` / `reject` call of the task registry is recorded in a settle
  log, so "the continuation is settled (at most) once" becomes a statement
  about that log.
-/

/-- `Map.prototype.get`. -/
def assocLookup {α : Type} (l : List (String × α)) (k : String) : Option α :=
  match l with
  | [] => none
  | (k', v) :: rest => if k' = k then some v else assocLookup rest k

/-- `Map.prototype.set`: replace in place when the key is present, else
append (JS `Map` preserves insertion order). -/
def assocSet {α : Type} (l : List (String × α)) (k : String) (v : α) :
    List (String × α) :=
  if l.any (fun p => p.1 == k) then
    l.map (fun p => if p.1 = k then (k, v) else p)
  else l ++ [(k, v)]

/-- `Map.prototype.delete` (on maps with unique keys). -/
def assocErase {α : Type} (l : List (String × α)) (k : String) :
    List (String × α) :=
  l.filter (fun p => !(p.1 == k))

/-! ## Data model (`distributed-compute.interface.ts`) -/

inductive NodeStatus
  | idle | computing | syncing | offline | error
deriving DecidableEq

inductive ClusterHealth
  | healthy | degraded | critical
deriving DecidableEq

structure GPUCapabilities where
  vendor : String
  architecture : String
  maxBufferSize : ℕ
  maxComputeWorkgroupsPerDimension : ℕ
  supportsF16 : Bool
  estimatedTFLOPS : ℚ
  availableVRAM : ℚ
deriving DecidableEq

structure ComputeNode where
  peerId : String
  deviceName : String
  gpu : GPUCapabilities
  status : NodeStatus
  currentLoad : ℚ
  layersAssigned : List ℕ
  lastHeartbeat : ℕ
  latencyMs : ℚ
  benchmarkScore : ℚ
deriving DecidableEq

structure ModelDistributionPlan where
  modelId : String
  totalLayers : ℕ
  layerAssignments : List (String × List ℕ)
  pipelineOrder : List String
  estimatedLatencyMs : ℚ
  redundancyLevel : ℕ
deriving DecidableEq

structure ClusterState where
  isCoordinator : Bool
  nodes : List (String × ComputeNode)
  currentPlan : Option ModelDistributionPlan
  totalComputePower : ℚ
  totalVRAM : ℚ
  activeTaskCount : ℕ
  clusterHealth : ClusterHealth
deriving DecidableEq

/-! ## Cluster membership (`gpu-cluster.service.ts`) -/

def NODE_TIMEOUT : ℕ := 15000

/-- `handleNodeJoin` (lines 342–373): upsert the sender keyed by `fromId`
with `status: 'idle'` and `lastHeartbeat: Date.now()`, then recompute the
aggregate totals as the sum over all map entries, and set health to
`'healthy'` unconditionally. -/
def handleNodeJoin (nodeInfo : ComputeNode) (fromId : String) (now : ℕ)
    (state : ClusterState) : ClusterState :=
  let nodes := assocSet state.nodes fromId
    ({ nodeInfo with peerId := fromId, lastHeartbeat := now, status := .idle })
  let totalPower := (nodes.map (fun p => p.2.gpu.estimatedTFLOPS)).sum
  let totalVRAM := (nodes.map (fun p => p.2.gpu.availableVRAM)).sum
  { state with nodes := nodes, totalComputePower := totalPower,
               totalVRAM := totalVRAM, clusterHealth := .healthy }

/-- `handleNodeLeave` (lines 375–381). -/
def handleNodeLeave (peerId : String) (state : ClusterState) : ClusterState :=
  { state with nodes := assocErase state.nodes peerId }

/-- `handleHeartbeat` (lines 383–397): update load, status and
`lastHeartbeat` of a known sender; unknown senders leave the map as is. -/
def handleHeartbeat (fromId : String) (load : ℚ) (status : NodeStatus)
    (now : ℕ) (state : ClusterState) : ClusterState :=
  match assocLookup state.nodes fromId with
  | none => state
  | some node =>
    let node' := { node with currentLoad := load, status := status, lastHeartbeat := now }
    { state with nodes := assocSet state.nodes fromId node' }

/-- One node's update inside the `checkNodeTimeouts` sweep.  JS computes
`now - node.lastHeartbeat > NODE_TIMEOUT`; with `ℕ` truncated subtraction a
heartbeat from the future gives `0 > 15000 = false`, exactly as the negative
JS difference does. -/
def sweepNode (now : ℕ) (node : ComputeNode) : ComputeNode :=
  if now - node.lastHeartbeat > NODE_TIMEOUT ∧ node.status ≠ .offline then
    { node with status := .offline }
  else node

/-- The sweep's `changed` flag. -/
def sweepChanged (now : ℕ) (nodes : List (String × ComputeNode)) : Bool :=
  nodes.any (fun p =>
    decide (now - p.2.lastHeartbeat > NODE_TIMEOUT ∧ p.2.status ≠ .offline))

def sweepNodes (now : ℕ) (nodes : List (String × ComputeNode)) :
    List (String × ComputeNode) :=
  nodes.map (fun p => (p.1, sweepNode now p.2))

/-- Health formula used by the sweep: `activeCount === 0 ? 'critical' :
activeCount < nodes.size / 2 ? 'degraded' : 'healthy'` (the JS division is
exact, so `activeCount < size / 2` is `2 * activeCount < size`). -/
def healthOf (nodes : List (String × ComputeNode)) : ClusterHealth :=
  let activeCount := (nodes.filter (fun p => decide (p.2.status ≠ .offline))).length
  if activeCount = 0 then .critical
  else if 2 * activeCount < nodes.length then .degraded
  else .healthy

/-- `checkNodeTimeouts` (lines 270–291): mark every stale non-offline node
offline; when nothing changed the state is returned untouched, otherwise
health is recomputed from the updated map. -/
def checkNodeTimeouts (now : ℕ) (state : ClusterState) : ClusterState :=
  if sweepChanged now state.nodes then
    let nodes := sweepNodes now state.nodes
    { state with nodes := nodes, clusterHealth := healthOf nodes }
  else state

/-! ## Distribution planner (`gpu-cluster.service.ts`, lines 570–641) -/

/-- The `activeNodes` computed signal (lines 97–99). -/
def activeNodes (state : ClusterState) : List ComputeNode :=
  (state.nodes.map (fun p => p.2)).filter
    (fun n => decide (n.status ≠ .offline ∧ n.status ≠ .error))

/-- Stable insertion for a descending sort by `benchmarkScore`.  `n` goes in
front of the first element whose score is `≤` its own, so elements occurring
earlier keep their place on ties — extensionally the stable JS
`sort((a, b) => b.benchmarkScore - a.benchmarkScore)`. -/
def insertByScoreDesc (n : ComputeNode) : List ComputeNode → List ComputeNode
  | [] => [n]
  | m :: rest =>
    if m.benchmarkScore ≤ n.benchmarkScore then n :: m :: rest
    else m :: insertByScoreDesc n rest

def sortByScoreDesc (l : List ComputeNode) : List ComputeNode :=
  l.foldr insertByScoreDesc []

/-- `Math.floor(totalLayers * (node.benchmarkScore / totalScore))`, clamped
to `ℕ` as the JS `for` loop does (a negative or NaN bound runs the loop zero
times; in Lean division by a zero `totalScore` yields `0`, matching the zero
iterations of the NaN bound). -/
def layerCountShare (totalLayers : ℕ) (score totalScore : ℚ) : ℕ :=
  (⌊(totalLayers : ℚ) * (score / totalScore)⌋).toNat

/-- The `sortedNodes.forEach` loop of `createDistributionPlan` (lines
591–605): each node takes `layerCount` consecutive layers starting at
`currentLayer` — the inner `for` also stops at `totalLayers`, hence the
`min` — and the last node takes the remainder; empty assignments are not
recorded. -/
def assignLayersLoop (totalLayers : ℕ) (totalScore : ℚ) :
    List ComputeNode → ℕ → List (String × List ℕ) → List (String × List ℕ)
  | [], _, acc => acc
  | node :: rest, currentLayer, acc =>
    let layerCount := if rest.isEmpty then totalLayers - currentLayer
      else layerCountShare totalLayers node.benchmarkScore totalScore
    let pushed := min layerCount (totalLayers - currentLayer)
    let layers := List.range' currentLayer pushed
    let acc' := if layers.isEmpty then acc else assocSet acc node.peerId layers
    assignLayersLoop totalLayers totalScore rest (currentLayer + pushed) acc'

/-- Stable insertion for the ascending sort of the assignment entries by
their first owned layer (`(a[1][0] || 0) - (b[1][0] || 0)`; `headD 0` is the
`|| 0` default). -/
def insertByFirstLayer (e : String × List ℕ) :
    List (String × List ℕ) → List (String × List ℕ)
  | [] => [e]
  | f :: rest =>
    if e.2.headD 0 ≤ f.2.headD 0 then e :: f :: rest
    else f :: insertByFirstLayer e rest

def sortAssignmentsByFirstLayer (l : List (String × List ℕ)) :
    List (String × List ℕ) :=
  l.foldr insertByFirstLayer []

/-- `estimatePipelineLatency` (lines 630–641): sum, over every hop after the
first, of the hop owner's measured latency — with the JS `|| 50` default
that also replaces a zero latency. -/
def estimatePipelineLatency (state : ClusterState) (pipelineOrder : List String) : ℚ :=
  (pipelineOrder.drop 1).foldl
    (fun total peerId =>
      total + (match assocLookup state.nodes peerId with
               | some n => if n.latencyMs = 0 then 50 else n.latencyMs
               | none => 50)) 0

/-- `createDistributionPlan` (lines 572–628).  The participating nodes are
the non-offline, non-error cluster nodes plus the local node; `none` models
the `'No compute nodes available'` throw. -/
def createDistributionPlan (state : ClusterState) (localNode : Option ComputeNode)
    (modelId : String) (totalLayers : ℕ) : Option ModelDistributionPlan :=
  let allNodes := activeNodes state ++ localNode.toList
  if allNodes.isEmpty then none
  else
    let sortedNodes := sortByScoreDesc allNodes
    let totalScore := (sortedNodes.map (fun n => n.benchmarkScore)).sum
    let layerAssignments := assignLayersLoop totalLayers totalScore sortedNodes 0 []
    let pipelineOrder := (sortAssignmentsByFirstLayer layerAssignments).map (fun p => p.1)
    some { modelId := modelId, totalLayers := totalLayers,
           layerAssignments := layerAssignments, pipelineOrder := pipelineOrder,
           estimatedLatencyMs := estimatePipelineLatency state pipelineOrder,
           redundancyLevel := 0 }

/-! ## Association list lemmas -/

def gpuSample : GPUCapabilities :=
  { vendor := "v", architecture := "x", maxBufferSize := 256, maxComputeWorkgroupsPerDimension := 64,
    supportsF16 := false, estimatedTFLOPS := 7, availableVRAM := 100 }

def nodeA : ComputeNode :=
  { peerId := "a", deviceName := "A", gpu := gpuSample, status := .idle, currentLoad := 0,
    layersAssigned := [], lastHeartbeat := 0, latencyMs := 0, benchmarkScore := 1 }

def stateA : ClusterState :=
  { isCoordinator := false, nodes := [("a", nodeA)], currentPlan := none,
    totalComputePower := 0, totalVRAM := 0, activeTaskCount := 0, clusterHealth := .healthy }

def nodeAOffline : ComputeNode := { nodeA with status := .offline }

def stateAOffline : ClusterState := { stateA with nodes := [("a", nodeAOffline)] }

def nodeB : ComputeNode :=
  { peerId := "b", deviceName := "B", gpu := gpuSample, status := .idle, currentLoad := 0,
    layersAssigned := [], lastHeartbeat := 0, latencyMs := 0, benchmarkScore := 2 }

def planB : ModelDistributionPlan :=
  { modelId := "m", totalLayers := 4, layerAssignments := [("b", [0, 1, 2, 3])],
    pipelineOrder := ["b"], estimatedLatencyMs := 0, redundancyLevel := 0 }

/-- Proof-side view of the layer runs produced by `assignLayersLoop`, one
run per node in sorted order (including the empty runs that the loop does
not record). -/
def layerRuns (L : ℕ) (T : ℚ) : List ComputeNode → ℕ → List (List ℕ)
  | [], _ => []
  | node :: rest, c =>
    let layerCount := if rest.isEmpty then L - c
      else layerCountShare L node.benchmarkScore T
    let pushed := min layerCount (L - c)
    List.range' c pushed :: layerRuns L T rest (c + pushed)

def nodeScoreA : ComputeNode := { nodeA with peerId := "A", benchmarkScore := 40 }

def nodeScoreB : ComputeNode := { nodeA with peerId := "B", benchmarkScore := 30 }

def nodeScoreC : ComputeNode := { nodeA with peerId := "C", benchmarkScore := 10 }

def stateABC : ClusterState :=
  { stateA with nodes := [("A", nodeScoreA), ("B", nodeScoreB), ("C", nodeScoreC)] }

/-- Refinement reference for C4, following the spec's words: the sum over
all non-offline nodes, plus the local node, of `estimatedTFLOPS`. -/
def specTotalComputePower (s : ClusterState) (localNode : Option ComputeNode) : ℚ :=
  (((s.nodes.map Prod.snd).filter (fun n => decide (n.status ≠ NodeStatus.offline))).map
    (fun n => n.gpu.estimatedTFLOPS)).sum
  + ((localNode.map (fun n => n.gpu.estimatedTFLOPS)).getD 0)

/-- Refinement reference for C4, following the spec's words: the sum over
all non-offline nodes, plus the local node, of `availableVRAM`. -/
def specTotalVRAM (s : ClusterState) (localNode : Option ComputeNode) : ℚ :=
  (((s.nodes.map Prod.snd).filter (fun n => decide (n.status ≠ NodeStatus.offline))).map
    (fun n => n.gpu.availableVRAM)).sum
  + ((localNode.map (fun n => n.gpu.availableVRAM)).getD 0)

def emptyClusterState : ClusterState :=
  { isCoordinator := false, nodes := [], currentPlan := none, totalComputePower := 0,
    totalVRAM := 0, activeTaskCount := 0, clusterHealth := .healthy }

/-- The reachable state used to refute C5: three nodes join at t = 0, node
`c` heartbeats at t = 10000, the sweep at t = 16000 marks `a` and `b`
offline (health becomes `degraded`), then `c` leaves — zero active nodes
remain but the health field keeps its previous value. -/
def stateAfterLeave : ClusterState :=
  handleNodeLeave "c"
    (checkNodeTimeouts 16000
      (handleHeartbeat "c" 0 .idle 10000
        (handleNodeJoin nodeA "c" 0
          (handleNodeJoin nodeA "b" 0
            (handleNodeJoin nodeA "a" 0 emptyClusterState)))))

def CHUNK_SIZE : ℕ := 1024 * 1024

structure TensorChunkMsg where
  tensorId : String
  chunkIndex : ℕ
  totalChunks : ℕ
  data : List ℕ
  checksum : ℕ
deriving DecidableEq

/-- `computeChecksum` (lines 349–357): running byte sum masked to 32 bits.
The JS code renders the sum as a hex string; the rendering is injective, so
the numeric value is kept. -/
def computeChecksum (data : List ℕ) : ℕ :=
  data.foldl (fun sum b => (sum + b) % 2 ^ 32) 0

/-- `sendTensorChunked` (lines 312–347): `Math.ceil(len / CHUNK_SIZE)`
chunks; chunk `i` carries `data.slice(i*CHUNK_SIZE, min((i+1)*CHUNK_SIZE,
len))` together with its checksum. -/
def sendTensorChunked (tensorId : String) (data : List ℕ) : List TensorChunkMsg :=
  let totalChunks := (data.length + CHUNK_SIZE - 1) / CHUNK_SIZE
  (List.range totalChunks).map fun i =>
    let chunkData := (data.drop (i * CHUNK_SIZE)).take CHUNK_SIZE
    { tensorId := tensorId, chunkIndex := i, totalChunks := totalChunks,
      data := chunkData, checksum := computeChecksum chunkData }

/-- The per-task registry entry (`PendingTask`, lines 15–20): the pieces the
claims are about are the accumulated per-tensor chunk buffers; the `resolve`
/ `reject` continuations are tracked through the settle log of
`InferenceState`. -/
structure PendingTask where
  tensorBuffer : List (String × List (Option (List ℕ)))
deriving DecidableEq

inductive SettleKind
  | resolved (result : String)
  | rejected (error : String)
deriving DecidableEq

/-- The service state the claims concern: the task registry
(`pendingTasks`), the tensor cache, and the log of every `resolve` /
`reject` call made on a pending task's continuation (most recent first). -/
structure InferenceState where
  pendingTasks : List (String × PendingTask)
  tensorCache : List (String × List ℕ)
  settles : List (String × SettleKind)
deriving DecidableEq

/-- `cleanupTask` (lines 521–534): delete the registry entry.  The delayed
5-second cache sweep deletes cache keys containing the task id; tensor ids
(`input-…`, `hidden-…`, `tensor-i`) never contain the task's UUID, so that
sweep deletes nothing and needs no further modelling. -/
def cleanupTask (taskId : String) (s : InferenceState) : InferenceState :=
  { s with pendingTasks := assocErase s.pendingTasks taskId }

/-- `completeTask` (lines 503–519): missing registry entry — no effect;
otherwise resolve the continuation and clean up. -/
def completeTask (taskId : String) (result : String) (s : InferenceState) :
    InferenceState :=
  match assocLookup s.pendingTasks taskId with
  | none => s
  | some _ =>
    cleanupTask taskId { s with settles := (taskId, .resolved result) :: s.settles }

/-- `handleComputeError` (lines 480–491). -/
def handleComputeError (taskId : String) (error : String) (s : InferenceState) :
    InferenceState :=
  match assocLookup s.pendingTasks taskId with
  | none => s
  | some _ =>
    cleanupTask taskId { s with settles := (taskId, .rejected error) :: s.settles }

/-- `cancelTask` (lines 585–591). -/
def cancelTask (taskId : String) (s : InferenceState) : InferenceState :=
  match assocLookup s.pendingTasks taskId with
  | none => s
  | some _ =>
    cleanupTask taskId
      { s with settles := (taskId, .rejected "Task cancelled") :: s.settles }

/-- `handleComputeResult` (lines 427–443): drop unless the task is pending;
the empty string is falsy in JS, so only a non-empty result resolves. -/
def handleComputeResult (taskId : String) (result : String) (s : InferenceState) :
    InferenceState :=
  match assocLookup s.pendingTasks taskId with
  | none => s
  | some _ => if result ≠ "" then completeTask taskId result s else s

/-- The slot array of `handleTensorChunk` after storing a chunk: the
existing per-tensor buffer (or a fresh `new Array(totalChunks)`) with the
chunk's bytes written at its index. -/
def updatedSlots (pending : PendingTask) (chunk : TensorChunkMsg) :
    List (Option (List ℕ)) :=
  ((assocLookup pending.tensorBuffer chunk.tensorId).getD
    (List.replicate chunk.totalChunks none)).set chunk.chunkIndex (some chunk.data)

/-- `handleTensorChunk` (lines 445–478): drop unless the task is pending;
store the chunk's bytes in its slot (the carried checksum is never
verified); once every slot is filled, concatenate in index order into the
tensor cache and discard the partial buffer.  Sender-produced chunks always
have `chunkIndex < totalChunks`; `List.set` ignores an out-of-range index
where a JS array would grow, a case no sender-produced chunk exercises. -/
def handleTensorChunk (taskId : String) (chunk : TensorChunkMsg) (s : InferenceState) :
    InferenceState :=
  match assocLookup s.pendingTasks taskId with
  | none => s
  | some pending =>
    if (updatedSlots pending chunk).all Option.isSome then
      { s with
        pendingTasks := assocSet s.pendingTasks taskId
          (PendingTask.mk (assocErase pending.tensorBuffer chunk.tensorId)),
        tensorCache := assocSet s.tensorCache chunk.tensorId
          (((updatedSlots pending chunk).map (fun o => o.getD [])).flatten) }
    else
      { s with
        pendingTasks := assocSet s.pendingTasks taskId
          (PendingTask.mk (assocSet pending.tensorBuffer chunk.tensorId
            (updatedSlots pending chunk))) }

/-- The local state effect of `handleComputeRequest` (lines 361–425): the
inline tensor is cached (line 373) and `processLayers` re-caches the buffer
under a fresh `hidden-…` id (line 257); the forward / result / error sends
do not touch local state, and the task registry is never consulted. -/
def handleComputeRequest (inputTensorId : String) (tensorData : Option (List ℕ))
    (hiddenId : String) (s : InferenceState) : InferenceState :=
  let s1 := match tensorData with
    | some d => { s with tensorCache := assocSet s.tensorCache inputTensorId d }
    | none => s
  { s1 with tensorCache := assocSet s1.tensorCache hiddenId (tensorData.getD []) }

inductive InferenceEvent
  | computeRequest (taskId inputTensorId : String)
      (tensorData : Option (List ℕ)) (hiddenId : String)
  | computeResult (taskId result : String)
  | tensorChunk (taskId : String) (chunk : TensorChunkMsg)
  | computeError (taskId error : String)
  | pipelineProgress (taskId : String) (stageIndex : ℕ)
  | cancel (taskId : String)
  | tick
deriving DecidableEq

/-- The `handleComputeMessage` dispatcher (lines 59–103) plus the public
`cancelTask` entry point and a timer tick.  `pipeline-progress` only updates
the task-display signal, and no timer of the service ever settles or
registers a task (the only `setTimeout` is the no-op cache sweep of
`cleanupTask`), so both leave this state unchanged. -/
def stepEvent (s : InferenceState) : InferenceEvent → InferenceState
  | .computeRequest _ inputTensorId tensorData hiddenId =>
      handleComputeRequest inputTensorId tensorData hiddenId s
  | .computeResult taskId result => handleComputeResult taskId result s
  | .tensorChunk taskId chunk => handleTensorChunk taskId chunk s
  | .computeError taskId error => handleComputeError taskId error s
  | .pipelineProgress _ _ => s
  | .cancel taskId => cancelTask taskId s
  | .tick => s

def runTrace (s : InferenceState) (trace : List InferenceEvent) : InferenceState :=
  trace.foldl stepEvent s

/-- The registry entry `runDistributedInference` (lines 125–135) creates for
a fresh task: empty tensor buffer, nothing settled yet. -/
def initWithTask (taskId : String) : InferenceState :=
  { pendingTasks := [(taskId, ⟨[]⟩)], tensorCache := [], settles := [] }

/-- How many times task `t`'s continuation has been settled. -/
def settlesFor (t : String) (s : InferenceState) : ℕ :=
  (s.settles.filter (fun p => p.1 == t)).length

/-- How many times task `t`'s continuation has been resolved (not rejected). -/
def resolvesFor (t : String) (s : InferenceState) : ℕ :=
  (s.settles.filter (fun p => p.1 == t &&
    match p.2 with | .resolved _ => true | .rejected _ => false)).length

def isResultOrErrorFor (t : String) : InferenceEvent → Bool
  | .computeResult taskId _ => taskId == t
  | .computeError taskId _ => taskId == t
  | _ => false

def isSettleEventFor (t : String) : InferenceEvent → Bool
  | .computeResult taskId _ => taskId == t
  | .computeError taskId _ => taskId == t
  | .cancel taskId => taskId == t
  | _ => false

/-- Claim C2 as stated: some fixed fallback ceiling `B` exists such that
every event trace of length at least `B` in which no `compute-result` /
`compute-error` for the task arrives ends with the task resolved (via local
fallback) exactly once. -/
def fallbackCeilingClaim : Prop :=
  ∃ B : ℕ, ∀ trace : List InferenceEvent,
    (∀ e ∈ trace, isResultOrErrorFor "task-1" e = false) →
    B ≤ trace.length →
    resolvesFor "task-1" (runTrace (initWithTask "task-1") trace) = 1

/-! ## More association list lemmas -/

def settledOnceInv (t : String) (s : InferenceState) : Prop :=
  settlesFor t s ≤ 1 ∧
  ((assocLookup s.pendingTasks t).isSome = true → settlesFor t s = 0)

def emptyInferenceState : InferenceState :=
  { pendingTasks := [], tensorCache := [], settles := [] }

def chunkW : TensorChunkMsg :=
  { tensorId := "t", chunkIndex := 0, totalChunks := 2, data := [5], checksum := 5 }

def corruptChunk : TensorChunkMsg :=
  { tensorId := "t", chunkIndex := 0, totalChunks := 1, data := [1, 2],
    checksum := computeChecksum [9, 9] }

/-- Proof-side view of a partially filled slot array: slot `i` holds
`f i` exactly when index `i` has already arrived (`i ∈ P`). -/
def slotsOf (T : ℕ) (f : ℕ → List ℕ) (P : Finset ℕ) : List (Option (List ℕ)) :=
  (List.range T).map (fun i => if i ∈ P then some (f i) else none)

theorem assocLookup_mem {α : Type} {l : List (String × α)} {k : String} {v : α}
    (h : assocLookup l k = some v) : (k, v) ∈ l := by
  induction l with
  | nil => simp [assocLookup] at h
  | cons p rest ih =>
      obtain ⟨k', w⟩ := p
      rw [assocLookup] at h
      by_cases hk : k' = k
      · rw [if_pos hk] at h
        injection h with h
        subst hk
        subst h
        exact List.mem_cons_self _ _
      · rw [if_neg hk] at h
        exact List.mem_cons_of_mem _ (ih h)

theorem assocLookup_eq_of_mem {α : Type} {l : List (String × α)} {k : String} {v : α}
    (hnd : (l.map Prod.fst).Nodup) (h : (k, v) ∈ l) : assocLookup l k = some v := by
  induction l with
  | nil => simp at h
  | cons p rest ih =>
      obtain ⟨k', w⟩ := p
      simp only [List.map_cons, List.nodup_cons] at hnd
      rcases List.mem_cons.mp h with heq | hmem
      · injection heq.symm with h1 h2
        subst h1
        subst h2
        simp [assocLookup]
      · by_cases hk : k' = k
        · subst hk
          exact absurd (List.mem_map_of_mem Prod.fst hmem) (by simpa using hnd.1)
        · rw [assocLookup, if_neg hk]
          exact ih hnd.2 hmem

theorem assocLookup_map_value {α β : Type} (f : α → β) (l : List (String × α)) (k : String) :
    assocLookup (l.map (fun p => (p.1, f p.2))) k = (assocLookup l k).map f := by
  induction l with
  | nil => rfl
  | cons p rest ih =>
      obtain ⟨k', w⟩ := p
      by_cases hk : k' = k <;> simp [assocLookup, hk, ih]

theorem mem_keys_assocSet {α : Type} {l : List (String × α)} {k k' : String} {v : α}
    (h : k ∈ (assocSet l k' v).map Prod.fst) : k ∈ l.map Prod.fst ∨ k = k' := by
  unfold assocSet at h
  split at h
  · rcases List.mem_map.mp h with ⟨p, hp, hk⟩
    rcases List.mem_map.mp hp with ⟨q, hq, hpq⟩
    by_cases hq1 : q.1 = k'
    · right; rw [← hk, ← hpq]; simp [hq1]
    · left; rw [← hk, ← hpq, if_neg hq1]
      exact List.mem_map_of_mem _ hq
  · rw [List.map_append] at h
    rcases List.mem_append.mp h with h | h
    · exact Or.inl h
    · right; simpa using h

/-! ## Sorting lemmas -/

theorem insertByScoreDesc_perm (n : ComputeNode) (l : List ComputeNode) :
    (insertByScoreDesc n l).Perm (n :: l) := by
  induction l with
  | nil => exact List.Perm.refl _
  | cons m rest ih =>
      rw [insertByScoreDesc]
      split
      · exact List.Perm.refl _
      · exact (ih.cons m).trans (List.Perm.swap n m rest)

theorem sortByScoreDesc_perm (l : List ComputeNode) : (sortByScoreDesc l).Perm l := by
  induction l with
  | nil => exact List.Perm.refl _
  | cons a rest ih =>
      exact (insertByScoreDesc_perm a (sortByScoreDesc rest)).trans (ih.cons a)

theorem mem_keys_ite_assocSet {α : Type} {acc : List (String × α)} {k k' : String} {v : α}
    {c : Prop} [Decidable c]
    (h : k ∈ (if c then acc else assocSet acc k' v).map Prod.fst) :
    k ∈ acc.map Prod.fst ∨ k = k' := by
  split at h
  · exact Or.inl h
  · exact mem_keys_assocSet h

theorem mem_keys_assignLayersLoop (L : ℕ) (T : ℚ) :
    ∀ (nodes : List ComputeNode) (c : ℕ) (acc : List (String × List ℕ)) (k : String),
      k ∈ (assignLayersLoop L T nodes c acc).map Prod.fst →
      k ∈ acc.map Prod.fst ∨ k ∈ nodes.map ComputeNode.peerId := by
  intro nodes
  induction nodes with
  | nil =>
      intro c acc k h
      rw [assignLayersLoop] at h
      exact Or.inl h
  | cons node rest ih =>
      intro c acc k h
      rw [assignLayersLoop] at h
      rcases ih _ _ _ h with hacc | hrest
      · rcases mem_keys_ite_assocSet hacc with hl | hk
        · exact Or.inl hl
        · exact Or.inr (by simp [hk])
      · exact Or.inr (List.mem_cons_of_mem _ hrest)

/-! ## C6: timeout eviction and plan exclusion -/

/-- Claim C6: a node whose last-heartbeat age exceeds the `NODE_TIMEOUT`
threshold (e.g. 16 s old under the 15 s timeout) is transitioned to
`offline` by the next `checkNodeTimeouts` sweep — and never before the
threshold elapses — and an offline node is excluded from any subsequently
computed distribution plan. -/
theorem stale_node_evicted_and_excluded
    (state : ClusterState) (now : ℕ) (p : String) (n : ComputeNode)
    (hlook : assocLookup state.nodes p = some n)
    (hnotoff : n.status ≠ NodeStatus.offline) :
    ((assocLookup (checkNodeTimeouts now state).nodes p).map ComputeNode.status
        = some (if NODE_TIMEOUT < now - n.lastHeartbeat then NodeStatus.offline
                else n.status))
    ∧ ∀ (s : ClusterState) (localNode : Option ComputeNode) (modelId : String)
        (totalLayers : ℕ) (p' : String) (n' : ComputeNode)
        (plan : ModelDistributionPlan),
        (s.nodes.map Prod.fst).Nodup →
        (∀ q ∈ s.nodes, (q : String × ComputeNode).2.peerId = q.1) →
        assocLookup s.nodes p' = some n' → n'.status = NodeStatus.offline →
        (∀ ln ∈ localNode.toList, (ln : ComputeNode).peerId ≠ p') →
        createDistributionPlan s localNode modelId totalLayers = some plan →
        p' ∉ plan.layerAssignments.map Prod.fst := by
  constructor
  · rw [checkNodeTimeouts]
    split
    · show (assocLookup (sweepNodes now state.nodes) p).map ComputeNode.status = _
      rw [sweepNodes, assocLookup_map_value, hlook]
      by_cases hage : NODE_TIMEOUT < now - n.lastHeartbeat
      · simp [sweepNode, hage, hnotoff]
      · simp [sweepNode, hage]
    · next hchg =>
        rw [hlook]
        simp only [sweepChanged, List.any_eq_true, decide_eq_true_eq] at hchg
        push_neg at hchg
        have hnage := hchg (p, n) (assocLookup_mem hlook)
        rw [if_neg (fun hage => hnotoff (hnage hage))]
        rfl
  · intro s localNode modelId totalLayers p' n' plan hnd hwf hlook' hoff hloc hplan hmem
    rw [createDistributionPlan] at hplan
    split at hplan
    · simp at hplan
    · injection hplan with hplan
      subst hplan
      rcases mem_keys_assignLayersLoop _ _ _ _ _ _ hmem with habs | hmem'
      · simp at habs
      · have hall : p' ∈ (activeNodes s ++ localNode.toList).map ComputeNode.peerId :=
          ((sortByScoreDesc_perm _).map ComputeNode.peerId).mem_iff.mp hmem'
        rw [List.map_append] at hall
        rcases List.mem_append.mp hall with hact | hlocmem
        · rcases List.mem_map.mp hact with ⟨m, hm, hmp⟩
          rw [activeNodes, List.mem_filter] at hm
          obtain ⟨hmm, hpred⟩ := hm
          rcases List.mem_map.mp hmm with ⟨q, hq, hq2⟩
          have hq1 : q.1 = p' := by rw [← hmp, ← hq2]; exact (hwf q hq).symm
          have hqeq : q = (p', m) := by
            obtain ⟨q1, q2⟩ := q
            simp only at hq1 hq2
            rw [hq1, hq2]
          rw [hqeq] at hq
          have := assocLookup_eq_of_mem hnd hq
          rw [hlook'] at this
          injection this with this
          rw [this] at hoff
          simp only [decide_eq_true_eq] at hpred
          exact hpred.1 hoff
        · rcases List.mem_map.mp hlocmem with ⟨ln, hln, hlnp⟩
          exact hloc ln hln hlnp

theorem stale_node_evicted_and_excluded_witness :
    assocLookup stateA.nodes "a" = some nodeA ∧
    nodeA.status ≠ NodeStatus.offline ∧
    (assocLookup (checkNodeTimeouts 16000 stateA).nodes "a").map ComputeNode.status
      = some NodeStatus.offline ∧
    createDistributionPlan stateAOffline (some nodeB) "m" 4 = some planB ∧
    "a" ∉ planB.layerAssignments.map Prod.fst := by
  refine ⟨by decide, by decide, ?_, by decide, ?_⟩
  · have h := (stale_node_evicted_and_excluded stateA 16000 "a" nodeA (by decide) (by decide)).1
    simpa using h
  · exact (stale_node_evicted_and_excluded stateA 16000 "a" nodeA (by decide) (by decide)).2
      stateAOffline (some nodeB) "m" 4 "a" nodeAOffline planB
      (by decide) (by decide) (by decide) (by decide) (by decide) (by decide)

/-! ## C1: the planner's assignments partition `[0, totalLayers)` -/

theorem assocSet_of_not_mem {α : Type} {l : List (String × α)} {k : String} (v : α)
    (h : k ∉ l.map Prod.fst) : assocSet l k v = l ++ [(k, v)] := by
  rw [assocSet, if_neg]
  intro hany
  rcases List.any_eq_true.mp hany with ⟨p, hp, hpk⟩
  exact h (by
    have : p.1 = k := by simpa using hpk
    exact this ▸ List.mem_map_of_mem Prod.fst hp)

theorem assignLayersLoop_eq_zip_runs (L : ℕ) (T : ℚ) :
    ∀ (nodes : List ComputeNode) (c : ℕ) (acc : List (String × List ℕ)),
      (∀ n ∈ nodes, (n : ComputeNode).peerId ∉ acc.map Prod.fst) →
      (nodes.map ComputeNode.peerId).Nodup →
      assignLayersLoop L T nodes c acc =
        acc ++ ((nodes.map ComputeNode.peerId).zip (layerRuns L T nodes c)).filter
          (fun p => !p.2.isEmpty) := by
  intro nodes
  induction nodes with
  | nil => intro c acc _ _; simp [assignLayersLoop, layerRuns]
  | cons node rest ih =>
      intro c acc hfresh hnd
      rw [assignLayersLoop, layerRuns]
      simp only [List.map_cons, List.nodup_cons] at hnd ⊢
      by_cases hemp : (List.range' c (min (if rest.isEmpty then L - c
          else layerCountShare L node.benchmarkScore T) (L - c))).isEmpty
      · rw [if_pos hemp]
        rw [List.zip_cons_cons, List.filter_cons_of_neg
          (by simp only []; rw [Bool.not_eq_true', hemp]; decide)]
        exact ih _ _ (fun n hn => hfresh n (List.mem_cons_of_mem _ hn)) hnd.2
      · rw [if_neg hemp]
        rw [assocSet_of_not_mem _ (hfresh node (List.mem_cons_self _ _))]
        rw [List.zip_cons_cons, List.filter_cons_of_pos
          (by simp only []; rw [Bool.not_eq_true']; exact Bool.eq_false_iff.mpr hemp)]
        rw [ih _ _ ?_ hnd.2]
        · simp
        · intro n hn
          rw [List.map_append]
          intro hmem
          rcases List.mem_append.mp hmem with hacc | hone
          · exact hfresh n (List.mem_cons_of_mem _ hn) hacc
          · have : n.peerId = node.peerId := by simpa using hone
            exact hnd.1 (this ▸ List.mem_map_of_mem ComputeNode.peerId hn)

theorem layerRuns_flatten (L : ℕ) (T : ℚ) :
    ∀ (nodes : List ComputeNode) (c : ℕ), nodes ≠ [] → c ≤ L →
      (layerRuns L T nodes c).flatten = List.range' c (L - c) := by
  intro nodes
  induction nodes with
  | nil => intro c h _; exact absurd rfl h
  | cons node rest ih =>
      intro c _ hc
      rw [layerRuns]
      cases rest with
      | nil =>
          simp [layerRuns, min_self]
      | cons r rs =>
          have hne : r :: rs ≠ [] := by simp
          have hpushed : min (if (r :: rs).isEmpty then L - c
              else layerCountShare L node.benchmarkScore T) (L - c) ≤ L - c :=
            min_le_right _ _
          rw [List.flatten_cons, ih _ hne (by omega)]
          have := List.range'_append c
            (min (if (r :: rs).isEmpty then L - c
              else layerCountShare L node.benchmarkScore T) (L - c))
            (L - (c + min (if (r :: rs).isEmpty then L - c
              else layerCountShare L node.benchmarkScore T) (L - c))) 1
          simp only [one_mul] at this
          rw [this]
          congr 1
          omega

theorem layerRuns_ranges (L : ℕ) (T : ℚ) :
    ∀ (nodes : List ComputeNode) (c : ℕ) (r : List ℕ),
      r ∈ layerRuns L T nodes c → ∃ a k, r = List.range' a k := by
  intro nodes
  induction nodes with
  | nil => intro c r h; simp [layerRuns] at h
  | cons node rest ih =>
      intro c r h
      rw [layerRuns] at h
      rcases List.mem_cons.mp h with heq | hmem
      · exact ⟨_, _, heq⟩
      · exact ih _ _ hmem

theorem layerRuns_length (L : ℕ) (T : ℚ) :
    ∀ (nodes : List ComputeNode) (c : ℕ),
      (layerRuns L T nodes c).length = nodes.length := by
  intro nodes
  induction nodes with
  | nil => intro c; rfl
  | cons node rest ih => intro c; rw [layerRuns]; simp [ih]

theorem map_snd_filter_zip {α β : Type} (p : β → Bool) :
    ∀ (as : List α) (bs : List β), as.length = bs.length →
      (((as.zip bs).filter (fun q => p q.2)).map Prod.snd) = bs.filter p := by
  intro as
  induction as with
  | nil =>
      intro bs h
      rw [List.length_nil] at h
      rw [List.eq_nil_of_length_eq_zero h.symm]
      rfl
  | cons a arest ih =>
      intro bs h
      cases bs with
      | nil => simp at h
      | cons b brest =>
          rw [List.zip_cons_cons]
          by_cases hb : p b
          · rw [List.filter_cons_of_pos (by simpa using hb), List.filter_cons_of_pos hb]
            simp only [List.map_cons]
            rw [ih brest (by simpa using h)]
          · rw [List.filter_cons_of_neg (by simpa using hb), List.filter_cons_of_neg hb]
            exact ih brest (by simpa using h)

theorem flatten_filter_not_isEmpty {α : Type} :
    ∀ (l : List (List α)), (l.filter (fun b => !b.isEmpty)).flatten = l.flatten := by
  intro l
  induction l with
  | nil => rfl
  | cons b rest ih =>
      by_cases hb : b.isEmpty
      · rw [List.filter_cons_of_neg (by simpa using hb), List.flatten_cons,
          List.isEmpty_iff.mp hb]
        simpa using ih
      · rw [List.filter_cons_of_pos (by simpa using hb), List.flatten_cons,
          List.flatten_cons, ih]

/-- Claim C1: for every `createDistributionPlan(modelId, totalLayers)` call
on a non-empty set of participating nodes (pairwise-distinct peer ids) of
which at least one has a positive benchmark score, the layer lists of the
returned plan's `layerAssignments` are each a contiguous ascending run,
pairwise disjoint, and their union is exactly `{0, …, totalLayers − 1}`. -/
theorem createDistributionPlan_partition
    (state : ClusterState) (localNode : Option ComputeNode)
    (modelId : String) (totalLayers : ℕ)
    (hne : activeNodes state ++ localNode.toList ≠ [])
    (hnd : ((activeNodes state ++ localNode.toList).map ComputeNode.peerId).Nodup)
    (_hpos : ∃ n ∈ activeNodes state ++ localNode.toList,
      0 < (n : ComputeNode).benchmarkScore) :
    ∃ plan, createDistributionPlan state localNode modelId totalLayers = some plan ∧
      (∀ r ∈ plan.layerAssignments.map Prod.snd, ∃ a k, r = List.range' a k) ∧
      List.Pairwise List.Disjoint (plan.layerAssignments.map Prod.snd) ∧
      (∀ x, (∃ r ∈ plan.layerAssignments.map Prod.snd, x ∈ r) ↔ x < totalLayers) := by
  clear _hpos
  have hempty : (activeNodes state ++ localNode.toList).isEmpty = false :=
    List.isEmpty_eq_false.mpr hne
  rw [createDistributionPlan, if_neg (by rw [hempty]; decide)]
  set sorted := sortByScoreDesc (activeNodes state ++ localNode.toList) with hsorted
  set T := (sorted.map (fun n => n.benchmarkScore)).sum with hT
  have hndsorted : (sorted.map ComputeNode.peerId).Nodup :=
    (((sortByScoreDesc_perm _).map ComputeNode.peerId).symm).nodup hnd
  have hlen := (sortByScoreDesc_perm (activeNodes state ++ localNode.toList)).length_eq
  have hznodes : sorted ≠ [] := by
    intro h
    rw [hsorted] at h
    rw [h] at hlen
    exact hne (List.eq_nil_of_length_eq_zero hlen.symm)
  have hloop : assignLayersLoop totalLayers T sorted 0 [] =
      ((sorted.map ComputeNode.peerId).zip (layerRuns totalLayers T sorted 0)).filter
        (fun p => !p.2.isEmpty) := by
    have h := assignLayersLoop_eq_zip_runs totalLayers T sorted 0 [] (by simp) hndsorted
    simpa using h
  have hvals : (assignLayersLoop totalLayers T sorted 0 []).map Prod.snd =
      (layerRuns totalLayers T sorted 0).filter (fun b => !b.isEmpty) := by
    rw [hloop]
    exact map_snd_filter_zip (fun b => !b.isEmpty) (sorted.map ComputeNode.peerId)
      (layerRuns totalLayers T sorted 0)
      (by rw [List.length_map, layerRuns_length])
  have hflat : ((assignLayersLoop totalLayers T sorted 0 []).map Prod.snd).flatten =
      List.range' 0 totalLayers := by
    rw [hvals, flatten_filter_not_isEmpty, layerRuns_flatten _ _ _ _ hznodes (Nat.zero_le _)]
    simp
  refine ⟨_, rfl, ?_, ?_, ?_⟩
  · intro r hr
    rw [hvals] at hr
    exact layerRuns_ranges totalLayers T sorted 0 r (List.mem_of_mem_filter hr)
  · have hnodupflat :
        ((assignLayersLoop totalLayers T sorted 0 []).map Prod.snd).flatten.Nodup := by
      rw [hflat]
      exact List.nodup_range' 0 totalLayers
    exact (List.nodup_flatten.mp hnodupflat).2
  · intro x
    rw [show (∃ r ∈ (assignLayersLoop totalLayers T sorted 0 []).map Prod.snd, x ∈ r) ↔
        x ∈ ((assignLayersLoop totalLayers T sorted 0 []).map Prod.snd).flatten from
      List.mem_flatten.symm]
    rw [hflat, List.mem_range'_1]
    omega

theorem createDistributionPlan_partition_witness :
    activeNodes stateA ++ (none : Option ComputeNode).toList ≠ [] ∧
    ∃ plan, createDistributionPlan stateA none "m" 5 = some plan ∧
      (∀ r ∈ plan.layerAssignments.map Prod.snd, ∃ a k, r = List.range' a k) ∧
      List.Pairwise List.Disjoint (plan.layerAssignments.map Prod.snd) ∧
      (∀ x, (∃ r ∈ plan.layerAssignments.map Prod.snd, x ∈ r) ↔ x < 5) :=
  ⟨by decide, createDistributionPlan_partition stateA none "m" 5 (by decide) (by decide)
    ⟨nodeA, by decide, by decide⟩⟩

/-! ## C7: the concrete 40/30/10 example -/

/-- Claim C7: with benchmark scores `[40, 30, 10]` and `totalLayers = 32` the
planner assigns node A layers 0–15 (16 layers), node B layers 16–27
(12 layers), node C — last in score-descending order — the remainder layers
28–31 (4 layers), and the pipeline order is `[A, B, C]` (ascending by first
owned layer). -/
theorem createDistributionPlan_example_40_30_10 :
    ∃ plan, createDistributionPlan stateABC none "m" 32 = some plan ∧
      plan.layerAssignments =
        [("A", List.range' 0 16), ("B", List.range' 16 12), ("C", List.range' 28 4)] ∧
      plan.pipelineOrder = ["A", "B", "C"] := by
  have hsort : sortByScoreDesc (activeNodes stateABC ++ Option.toList (none : Option ComputeNode))
      = [nodeScoreA, nodeScoreB, nodeScoreC] := by decide
  have hsum : ((([nodeScoreA, nodeScoreB, nodeScoreC] : List ComputeNode).map
      (fun n => n.benchmarkScore)).sum) = 80 := by
    simp only [List.map_cons, List.map_nil, List.sum_cons, List.sum_nil]
    norm_num [nodeScoreA, nodeScoreB, nodeScoreC, nodeA]
  have h1 : layerCountShare 32 nodeScoreA.benchmarkScore 80 = 16 := by
    rw [layerCountShare]
    rw [show ⌊((32 : ℕ) : ℚ) * (nodeScoreA.benchmarkScore / 80)⌋ = 16 by
      norm_num [nodeScoreA, nodeA]]
    rfl
  have h2 : layerCountShare 32 nodeScoreB.benchmarkScore 80 = 12 := by
    rw [layerCountShare]
    rw [show ⌊((32 : ℕ) : ℚ) * (nodeScoreB.benchmarkScore / 80)⌋ = 12 by
      norm_num [nodeScoreB, nodeA]]
    rfl
  have hloop : assignLayersLoop 32 80 [nodeScoreA, nodeScoreB, nodeScoreC] 0 [] =
      [("A", List.range' 0 16), ("B", List.range' 16 12), ("C", List.range' 28 4)] := by
    simp only [assignLayersLoop, h1, h2]
    decide
  rw [createDistributionPlan, if_neg (by decide), hsort]
  simp only [hsum, hloop]
  exact ⟨_, rfl, by decide, by decide⟩

/-! ## C4: aggregate totals -/

/-- Claim C4 counterexample: a heartbeat is a membership mutation, yet it
does not recompute the totals — after `handleHeartbeat` the stored
`totalComputePower` (still `0`) differs from the spec's sum over non-offline
nodes plus the local node (`7 + 7 = 14`). -/
theorem heartbeat_totals_counterexample :
    (handleHeartbeat "a" 10 .idle 1000 stateA).totalComputePower ≠
      specTotalComputePower (handleHeartbeat "a" 10 .idle 1000 stateA) (some nodeB) := by
  have h : (handleHeartbeat "a" 10 .idle 1000 stateA).totalComputePower = 0 := by
    rfl
  have h2 : specTotalComputePower (handleHeartbeat "a" 10 .idle 1000 stateA) (some nodeB)
      = 14 := by
    show ((7 : ℚ) + 0) + 7 = 14
    norm_num
  rw [h, h2]
  norm_num

/-- Claim C4 amended: only `handleNodeJoin` recomputes `totalComputePower`
and `totalVRAM`, and it computes them as the sum over all nodes stored in
the membership map — offline nodes included, the local node excluded;
`handleHeartbeat`, `handleNodeLeave` and the `checkNodeTimeouts` sweep leave
both totals unchanged. -/
theorem totals_recomputed_only_on_join :
    (∀ (info : ComputeNode) (fid : String) (now : ℕ) (s : ClusterState),
      (handleNodeJoin info fid now s).totalComputePower =
        ((handleNodeJoin info fid now s).nodes.map (fun p => p.2.gpu.estimatedTFLOPS)).sum ∧
      (handleNodeJoin info fid now s).totalVRAM =
        ((handleNodeJoin info fid now s).nodes.map (fun p => p.2.gpu.availableVRAM)).sum) ∧
    (∀ (fid : String) (load : ℚ) (st : NodeStatus) (now : ℕ) (s : ClusterState),
      (handleHeartbeat fid load st now s).totalComputePower = s.totalComputePower ∧
      (handleHeartbeat fid load st now s).totalVRAM = s.totalVRAM) ∧
    (∀ (pid : String) (s : ClusterState),
      (handleNodeLeave pid s).totalComputePower = s.totalComputePower ∧
      (handleNodeLeave pid s).totalVRAM = s.totalVRAM) ∧
    (∀ (now : ℕ) (s : ClusterState),
      (checkNodeTimeouts now s).totalComputePower = s.totalComputePower ∧
      (checkNodeTimeouts now s).totalVRAM = s.totalVRAM) := by
  refine ⟨fun info fid now s => ⟨rfl, rfl⟩, fun fid load st now s => ?_,
    fun pid s => ⟨rfl, rfl⟩, fun now s => ?_⟩
  · rw [handleHeartbeat]
    cases assocLookup s.nodes fid <;> exact ⟨rfl, rfl⟩
  · rw [checkNodeTimeouts]
    split <;> exact ⟨rfl, rfl⟩

/-! ## C5: cluster health -/

/-- Claim C5 counterexample: in `stateAfterLeave` — reachable through the
membership handlers and the sweep — zero active nodes remain, yet
`clusterHealth` is `degraded`, not `critical`, so the claimed biconditional
fails. -/
theorem health_invariant_counterexample :
    ¬ (stateAfterLeave.clusterHealth = ClusterHealth.critical ↔
        ((stateAfterLeave.nodes.map Prod.snd).filter
          (fun n => decide (n.status ≠ NodeStatus.offline))).length = 0) := by
  decide

/-- Claim C5 amended: the health formula (`critical` iff zero active nodes,
`degraded` iff fewer than half the known nodes are active, else `healthy`)
holds for the node set the sweep produces whenever the sweep marks at least
one node offline; `handleNodeJoin` sets health to `healthy` unconditionally,
and `handleNodeLeave` / `handleHeartbeat` never change the health field, so
the biconditional is not an invariant of all reachable states. -/
theorem health_recomputed_only_by_sweep :
    (∀ (nodes : List (String × ComputeNode)),
      (healthOf nodes = ClusterHealth.critical ↔
        (nodes.filter (fun p => decide (p.2.status ≠ NodeStatus.offline))).length = 0) ∧
      (healthOf nodes = ClusterHealth.degraded ↔
        ((nodes.filter (fun p => decide (p.2.status ≠ NodeStatus.offline))).length ≠ 0 ∧
         2 * (nodes.filter (fun p => decide (p.2.status ≠ NodeStatus.offline))).length
           < nodes.length))) ∧
    (∀ (now : ℕ) (s : ClusterState), sweepChanged now s.nodes = true →
      (checkNodeTimeouts now s).clusterHealth = healthOf (sweepNodes now s.nodes)) ∧
    (∀ (now : ℕ) (s : ClusterState), sweepChanged now s.nodes = false →
      checkNodeTimeouts now s = s) ∧
    (∀ (info : ComputeNode) (fid : String) (now : ℕ) (s : ClusterState),
      (handleNodeJoin info fid now s).clusterHealth = ClusterHealth.healthy) ∧
    (∀ (pid : String) (s : ClusterState),
      (handleNodeLeave pid s).clusterHealth = s.clusterHealth) ∧
    (∀ (fid : String) (load : ℚ) (st : NodeStatus) (now : ℕ) (s : ClusterState),
      (handleHeartbeat fid load st now s).clusterHealth = s.clusterHealth) := by
  refine ⟨fun nodes => ?_, fun now s h => ?_, fun now s h => ?_,
    fun info fid now s => rfl, fun pid s => rfl, fun fid load st now s => ?_⟩
  · rw [healthOf]
    constructor
    · constructor
      · intro h
        by_cases h0 : (nodes.filter (fun p => decide (p.2.status ≠ NodeStatus.offline))).length = 0
        · exact h0
        · rw [if_neg h0] at h
          split at h <;> simp_all
      · intro h0
        rw [if_pos h0]
    · constructor
      · intro h
        by_cases h0 : (nodes.filter (fun p => decide (p.2.status ≠ NodeStatus.offline))).length = 0
        · rw [if_pos h0] at h
          simp_all
        · rw [if_neg h0] at h
          refine ⟨h0, ?_⟩
          by_contra hlt
          rw [if_neg hlt] at h
          simp_all
      · intro ⟨h0, hlt⟩
        rw [if_neg h0, if_pos hlt]
  · rw [checkNodeTimeouts, if_pos h]
  · rw [checkNodeTimeouts, if_neg (by rw [h]; decide)]
  · rw [handleHeartbeat]
    cases assocLookup s.nodes fid <;> rfl

theorem health_recomputed_only_by_sweep_witness :
    sweepChanged 16000 stateA.nodes = true ∧
    (checkNodeTimeouts 16000 stateA).clusterHealth = healthOf (sweepNodes 16000 stateA.nodes) ∧
    sweepChanged 100 stateA.nodes = false ∧
    checkNodeTimeouts 100 stateA = stateA :=
  ⟨by decide, health_recomputed_only_by_sweep.2.1 16000 stateA (by decide),
   by decide, health_recomputed_only_by_sweep.2.2.1 100 stateA (by decide)⟩

/-! ## Distributed inference service (`distributed-inference.service.ts`) -/

theorem assocLookup_mapReplace_self {α : Type} (k : String) (v : α) :
    ∀ l : List (String × α), l.any (fun p => p.1 == k) = true →
      assocLookup (l.map (fun p => if p.1 = k then (k, v) else p)) k = some v := by
  intro l
  induction l with
  | nil => intro h; simp at h
  | cons p rest ih =>
      intro h
      obtain ⟨k', w⟩ := p
      by_cases hk : k' = k
      · subst hk
        have hmap : ((k', w) :: rest).map (fun p => if p.1 = k' then (k', v) else p)
            = (k', v) :: rest.map (fun p => if p.1 = k' then (k', v) else p) := by simp
        rw [hmap, assocLookup, if_pos rfl]
      · have hmap : ((k', w) :: rest).map (fun p => if p.1 = k then (k, v) else p)
            = (k', w) :: rest.map (fun p => if p.1 = k then (k, v) else p) := by simp [hk]
        rw [hmap, assocLookup, if_neg hk]
        apply ih
        simp only [List.any_cons] at h
        simpa [hk] using h

theorem assocLookup_mapReplace_ne {α : Type} {k k' : String} (hne : k' ≠ k) (v : α) :
    ∀ l : List (String × α),
      assocLookup (l.map (fun p => if p.1 = k' then (k', v) else p)) k
        = assocLookup l k := by
  intro l
  induction l with
  | nil => rfl
  | cons p rest ih =>
      obtain ⟨k1, w⟩ := p
      by_cases h1 : k1 = k'
      · subst h1
        have hmap : ((k1, w) :: rest).map (fun p => if p.1 = k1 then (k1, v) else p)
            = (k1, v) :: rest.map (fun p => if p.1 = k1 then (k1, v) else p) := by simp
        rw [hmap, assocLookup, assocLookup, if_neg hne, if_neg hne]
        exact ih
      · have hmap : ((k1, w) :: rest).map (fun p => if p.1 = k' then (k', v) else p)
            = (k1, w) :: rest.map (fun p => if p.1 = k' then (k', v) else p) := by simp [h1]
        rw [hmap, assocLookup, assocLookup]
        by_cases h2 : k1 = k
        · rw [if_pos h2, if_pos h2]
        · rw [if_neg h2, if_neg h2]
          exact ih

theorem assocLookup_append {α : Type} (k : String) :
    ∀ (l1 l2 : List (String × α)),
      assocLookup (l1 ++ l2) k =
        (match assocLookup l1 k with
          | some v => some v
          | none => assocLookup l2 k) := by
  intro l1 l2
  induction l1 with
  | nil => rfl
  | cons p rest ih =>
      obtain ⟨k1, w⟩ := p
      by_cases h : k1 = k
      · rw [List.cons_append, assocLookup, if_pos h, assocLookup, if_pos h]
      · rw [List.cons_append, assocLookup, if_neg h, assocLookup, if_neg h]
        exact ih

theorem assocLookup_assocSet_self {α : Type} (l : List (String × α)) (k : String) (v : α) :
    assocLookup (assocSet l k v) k = some v := by
  rw [assocSet]
  split
  · next h => exact assocLookup_mapReplace_self k v l h
  · next h =>
      rw [assocLookup_append]
      have hnone : assocLookup l k = none := by
        induction l with
        | nil => rfl
        | cons p rest ih =>
            obtain ⟨k1, w⟩ := p
            simp only [List.any_cons] at h
            rw [assocLookup]
            by_cases h1 : k1 = k
            · exact absurd (by simp [h1]) h
            · rw [if_neg h1]
              exact ih (by intro hr; exact h (by simp [hr]))
      rw [hnone]
      rw [assocLookup, if_pos rfl]

theorem assocLookup_assocSet_ne {α : Type} (l : List (String × α)) {k k' : String} (v : α)
    (hne : k' ≠ k) : assocLookup (assocSet l k' v) k = assocLookup l k := by
  rw [assocSet]
  split
  · exact assocLookup_mapReplace_ne hne v l
  · rw [assocLookup_append]
    cases h : assocLookup l k with
    | some w => rfl
    | none =>
        show assocLookup [(k', v)] k = none
        rw [assocLookup, if_neg hne]
        rfl

theorem assocLookup_assocErase_self {α : Type} (l : List (String × α)) (k : String) :
    assocLookup (assocErase l k) k = none := by
  rw [assocErase]
  induction l with
  | nil => rfl
  | cons p rest ih =>
      obtain ⟨k1, w⟩ := p
      by_cases h : k1 = k
      · rw [List.filter_cons_of_neg (by simp [h])]
        exact ih
      · rw [List.filter_cons_of_pos (by simp [h]), assocLookup, if_neg h]
        exact ih

theorem assocLookup_assocErase_ne {α : Type} (l : List (String × α)) {k k' : String}
    (hne : k' ≠ k) : assocLookup (assocErase l k') k = assocLookup l k := by
  rw [assocErase]
  induction l with
  | nil => rfl
  | cons p rest ih =>
      obtain ⟨k1, w⟩ := p
      by_cases h : k1 = k'
      · rw [List.filter_cons_of_neg (by simp [h]), assocLookup, if_neg (h ▸ hne)]
        exact ih
      · rw [List.filter_cons_of_pos (by simp [h]), assocLookup, assocLookup]
        by_cases h2 : k1 = k
        · rw [if_pos h2, if_pos h2]
        · rw [if_neg h2, if_neg h2]
          exact ih

/-! ## Settle-log lemmas -/

theorem stepEvent_computeRequest (s : InferenceState) (tid inId : String)
    (dat : Option (List ℕ)) (hid : String) :
    stepEvent s (.computeRequest tid inId dat hid) = handleComputeRequest inId dat hid s := rfl

theorem stepEvent_computeResult (s : InferenceState) (tid r : String) :
    stepEvent s (.computeResult tid r) = handleComputeResult tid r s := rfl

theorem stepEvent_tensorChunk (s : InferenceState) (tid : String) (c : TensorChunkMsg) :
    stepEvent s (.tensorChunk tid c) = handleTensorChunk tid c s := rfl

theorem stepEvent_computeError (s : InferenceState) (tid err : String) :
    stepEvent s (.computeError tid err) = handleComputeError tid err s := rfl

theorem stepEvent_cancel (s : InferenceState) (tid : String) :
    stepEvent s (.cancel tid) = cancelTask tid s := rfl

theorem settleShape_nontarget (t tid : String) (k : SettleKind) (s : InferenceState)
    (htne : tid ≠ t) :
    settlesFor t (cleanupTask tid { s with settles := (tid, k) :: s.settles })
      = settlesFor t s ∧
    (assocLookup (cleanupTask tid
        { s with settles := (tid, k) :: s.settles }).pendingTasks t).isSome
      = (assocLookup s.pendingTasks t).isSome := by
  constructor
  · simp [cleanupTask, settlesFor, List.filter_cons, htne]
  · simp [cleanupTask, assocLookup_assocErase_ne _ htne]

theorem settleShape_target (t : String) (k : SettleKind) (s : InferenceState) :
    settlesFor t (cleanupTask t { s with settles := (t, k) :: s.settles })
      = settlesFor t s + 1 ∧
    assocLookup (cleanupTask t
        { s with settles := (t, k) :: s.settles }).pendingTasks t = none := by
  constructor
  · simp [cleanupTask, settlesFor, List.filter_cons]
  · simp [cleanupTask, assocLookup_assocErase_self]

theorem stepEvent_nonsettle (t : String) (s : InferenceState) (e : InferenceEvent)
    (h : isSettleEventFor t e = false) :
    settlesFor t (stepEvent s e) = settlesFor t s ∧
    (assocLookup (stepEvent s e).pendingTasks t).isSome
      = (assocLookup s.pendingTasks t).isSome := by
  cases e with
  | computeRequest tid inId dat hid =>
      cases dat <;> exact ⟨rfl, rfl⟩
  | computeResult tid r =>
      have htne : tid ≠ t := by simpa [isSettleEventFor] using h
      rw [stepEvent_computeResult, handleComputeResult]
      cases hl : assocLookup s.pendingTasks tid with
      | none => exact ⟨rfl, rfl⟩
      | some pd =>
          by_cases hr : r ≠ ""
          · rw [if_pos hr, completeTask, hl]
            exact settleShape_nontarget t tid _ s htne
          · rw [if_neg hr]
            exact ⟨rfl, rfl⟩
  | tensorChunk tid c =>
      rw [stepEvent_tensorChunk, handleTensorChunk]
      cases hl : assocLookup s.pendingTasks tid with
      | none => exact ⟨rfl, rfl⟩
      | some pd =>
          constructor
          · split
            · next heq => simp at heq
            · next pd' heq => split <;> rfl
          · split
            · next heq => simp at heq
            · next pd' heq =>
                by_cases ht : tid = t
                · subst ht
                  split
                  · rw [assocLookup_assocSet_self, hl]
                    rfl
                  · rw [assocLookup_assocSet_self, hl]
                    rfl
                · split
                  · rw [assocLookup_assocSet_ne _ _ ht]
                  · rw [assocLookup_assocSet_ne _ _ ht]
  | computeError tid err =>
      have htne : tid ≠ t := by simpa [isSettleEventFor] using h
      rw [stepEvent_computeError, handleComputeError]
      cases hl : assocLookup s.pendingTasks tid with
      | none => exact ⟨rfl, rfl⟩
      | some pd => exact settleShape_nontarget t tid _ s htne
  | cancel tid =>
      have htne : tid ≠ t := by simpa [isSettleEventFor] using h
      rw [stepEvent_cancel, cancelTask]
      cases hl : assocLookup s.pendingTasks tid with
      | none => exact ⟨rfl, rfl⟩
      | some pd => exact settleShape_nontarget t tid _ s htne
  | pipelineProgress tid i => exact ⟨rfl, rfl⟩
  | tick => exact ⟨rfl, rfl⟩

theorem runTrace_nonsettle (t : String) :
    ∀ (trace : List InferenceEvent) (s : InferenceState),
      (∀ e ∈ trace, isSettleEventFor t e = false) →
      settlesFor t (runTrace s trace) = settlesFor t s ∧
      (assocLookup (runTrace s trace).pendingTasks t).isSome
        = (assocLookup s.pendingTasks t).isSome := by
  intro trace
  induction trace with
  | nil => exact fun s _ => ⟨rfl, rfl⟩
  | cons e rest ih =>
      intro s h
      obtain ⟨h1, h2⟩ := stepEvent_nonsettle t s e (h e (List.mem_cons_self _ _))
      obtain ⟨h3, h4⟩ := ih (stepEvent s e) (fun e' h' => h e' (List.mem_cons_of_mem _ h'))
      exact ⟨h3.trans h1, h4.trans h2⟩

/-! ## C2: no fallback ceiling exists -/

theorem runTrace_replicate_tick (s : InferenceState) :
    ∀ n : ℕ, runTrace s (List.replicate n .tick) = s := by
  intro n
  induction n with
  | zero => rfl
  | succ n ih => exact ih

/-- Claim C2 counterexample: `fallbackCeilingClaim` is false — for every
candidate ceiling `B`, a trace of `B` timer ticks carries no compute-result
or compute-error for the task, yet the task is still unresolved afterwards:
the service registers no timeout and never falls back on its own. -/
theorem no_fallback_ceiling : ¬ fallbackCeilingClaim := by
  rintro ⟨B, h⟩
  have hres := h (List.replicate B .tick)
    (fun e he => by rw [List.eq_of_mem_replicate he]; rfl)
    (by simp)
  rw [runTrace_replicate_tick] at hres
  simp [resolvesFor, initWithTask] at hres

/-- Claim C2 amended: the service implements no fallback ceiling — across
any event trace containing no compute-result, compute-error or cancellation
for a task, the task's continuation is never settled (its settle count is
unchanged) and its registry entry survives; local fallback in
`runWithFallback` happens only when the distributed attempt rejects, never
by timeout. -/
theorem no_settle_without_result_error_or_cancel
    (t : String) (s : InferenceState) (trace : List InferenceEvent)
    (h : ∀ e ∈ trace, isSettleEventFor t e = false) :
    settlesFor t (runTrace s trace) = settlesFor t s ∧
    (assocLookup (runTrace s trace).pendingTasks t).isSome
      = (assocLookup s.pendingTasks t).isSome :=
  runTrace_nonsettle t trace s h

theorem no_settle_without_result_error_or_cancel_witness :
    (∀ e ∈ ([.tick, .pipelineProgress "task-1" 0] : List InferenceEvent),
      isSettleEventFor "task-1" e = false) ∧
    settlesFor "task-1"
        (runTrace (initWithTask "task-1") [.tick, .pipelineProgress "task-1" 0])
      = settlesFor "task-1" (initWithTask "task-1") ∧
    (assocLookup (runTrace (initWithTask "task-1")
        [.tick, .pipelineProgress "task-1" 0]).pendingTasks "task-1").isSome
      = (assocLookup (initWithTask "task-1").pendingTasks "task-1").isSome :=
  ⟨by decide,
   (no_settle_without_result_error_or_cancel "task-1" (initWithTask "task-1")
     [.tick, .pipelineProgress "task-1" 0] (by decide)).1,
   (no_settle_without_result_error_or_cancel "task-1" (initWithTask "task-1")
     [.tick, .pipelineProgress "task-1" 0] (by decide)).2⟩

/-! ## C9: cancellation and at-most-once settlement -/

theorem cancelTask_not_pending {t : String} {s : InferenceState}
    (h : assocLookup s.pendingTasks t = none) : cancelTask t s = s := by
  rw [cancelTask, h]

theorem stepEvent_settledOnceInv (t : String) (s : InferenceState) (e : InferenceEvent)
    (h : settledOnceInv t s) : settledOnceInv t (stepEvent s e) := by
  by_cases hse : isSettleEventFor t e = false
  · obtain ⟨h1, h2⟩ := stepEvent_nonsettle t s e hse
    exact ⟨h1 ▸ h.1, fun hs => h1.trans (h.2 (h2 ▸ hs))⟩
  · have hse' : isSettleEventFor t e = true := by
      cases hb : isSettleEventFor t e
      · exact absurd hb hse
      · rfl
    cases e with
    | computeRequest tid inId dat hid => simp [isSettleEventFor] at hse'
    | tensorChunk tid c => simp [isSettleEventFor] at hse'
    | pipelineProgress tid i => simp [isSettleEventFor] at hse'
    | tick => simp [isSettleEventFor] at hse'
    | computeResult tid r =>
        have htid : tid = t := by simpa [isSettleEventFor] using hse'
        subst htid
        rw [stepEvent_computeResult, handleComputeResult]
        cases hl : assocLookup s.pendingTasks tid with
        | none => exact h
        | some pd =>
            by_cases hr : r ≠ ""
            · rw [if_pos hr, completeTask, hl]
              obtain ⟨hc1, hc2⟩ := settleShape_target tid (.resolved r) s
              refine ⟨?_, fun hs => ?_⟩
              · rw [hc1, h.2 (by rw [hl]; rfl)]
              · rw [hc2] at hs
                simp at hs
            · rw [if_neg hr]
              exact h
    | computeError tid err =>
        have htid : tid = t := by simpa [isSettleEventFor] using hse'
        subst htid
        rw [stepEvent_computeError, handleComputeError]
        cases hl : assocLookup s.pendingTasks tid with
        | none => exact h
        | some pd =>
            obtain ⟨hc1, hc2⟩ := settleShape_target tid (.rejected err) s
            refine ⟨?_, fun hs => ?_⟩
            · rw [hc1, h.2 (by rw [hl]; rfl)]
            · rw [hc2] at hs
              simp at hs
    | cancel tid =>
        have htid : tid = t := by simpa [isSettleEventFor] using hse'
        subst htid
        rw [stepEvent_cancel, cancelTask]
        cases hl : assocLookup s.pendingTasks tid with
        | none => exact h
        | some pd =>
            obtain ⟨hc1, hc2⟩ := settleShape_target tid (.rejected "Task cancelled") s
            refine ⟨?_, fun hs => ?_⟩
            · rw [hc1, h.2 (by rw [hl]; rfl)]
            · rw [hc2] at hs
              simp at hs

theorem runTrace_settledOnceInv (t : String) :
    ∀ (trace : List InferenceEvent) (s : InferenceState),
      settledOnceInv t s → settledOnceInv t (runTrace s trace) := by
  intro trace
  induction trace with
  | nil => exact fun s h => h
  | cons e rest ih =>
      exact fun s h => ih (stepEvent s e) (stepEvent_settledOnceInv t s e h)

/-- Claim C9: `cancelTask` on a pending task immediately rejects the pending
continuation with the cancellation error and removes the task's registry
entry; a second `cancelTask` for the same id is a no-op (the id is already
removed), and across any sequence of events a task whose continuation is
unsettled is settled at most once. -/
theorem cancelTask_rejects_once :
    (∀ (s : InferenceState) (t : String) (pd : PendingTask),
      assocLookup s.pendingTasks t = some pd →
      cancelTask t s = { s with
        settles := (t, SettleKind.rejected "Task cancelled") :: s.settles,
        pendingTasks := assocErase s.pendingTasks t }) ∧
    (∀ (s : InferenceState) (t : String),
      cancelTask t (cancelTask t s) = cancelTask t s) ∧
    (∀ (s : InferenceState) (t : String) (trace : List InferenceEvent),
      settlesFor t s = 0 → settlesFor t (runTrace s trace) ≤ 1) := by
  refine ⟨fun s t pd hl => ?_, fun s t => ?_, fun s t trace h0 => ?_⟩
  · rw [cancelTask, hl]
    rfl
  · cases hl : assocLookup s.pendingTasks t with
    | none =>
        rw [cancelTask_not_pending hl]
        exact cancelTask_not_pending hl
    | some pd =>
        apply cancelTask_not_pending
        rw [cancelTask, hl]
        exact assocLookup_assocErase_self _ _
  · exact (runTrace_settledOnceInv t trace s ⟨by omega, fun _ => h0⟩).1

theorem cancelTask_rejects_once_witness :
    assocLookup (initWithTask "k").pendingTasks "k" = some (PendingTask.mk []) ∧
    cancelTask "k" (initWithTask "k") = { initWithTask "k" with
      settles := [("k", SettleKind.rejected "Task cancelled")],
      pendingTasks := [] } ∧
    settlesFor "k" (initWithTask "k") = 0 ∧
    settlesFor "k" (runTrace (initWithTask "k")
      [.cancel "k", .cancel "k", .computeResult "k" "r"]) ≤ 1 :=
  ⟨by decide,
   by
     have h := cancelTask_rejects_once.1 (initWithTask "k") "k" (PendingTask.mk []) (by decide)
     simpa using h,
   by decide,
   cancelTask_rejects_once.2.2 (initWithTask "k") "k"
     [.cancel "k", .cancel "k", .computeResult "k" "r"] (by decide)⟩

/-! ## C10: messages for unknown task ids -/

theorem runTrace_chunks_only_empty_registry :
    ∀ (trace : List InferenceEvent) (s : InferenceState),
      s.pendingTasks = [] →
      (∀ e ∈ trace, ∃ t c, e = InferenceEvent.tensorChunk t c) →
      runTrace s trace = s := by
  intro trace
  induction trace with
  | nil => intro s _ _; rfl
  | cons e rest ih =>
      intro s hs htr
      obtain ⟨t, c, rfl⟩ := htr e (List.mem_cons_self _ _)
      have hstep : stepEvent s (.tensorChunk t c) = s := by
        rw [stepEvent_tensorChunk, handleTensorChunk, hs]
        rfl
      show runTrace (stepEvent s (.tensorChunk t c)) rest = s
      rw [hstep]
      exact ih s hs (fun e' he' => htr e' (List.mem_cons_of_mem _ he'))

/-- Claim C10: a tensor-chunk, compute-result or compute-error message whose
task id has no entry in the pending-task registry leaves the service state
unchanged; since only the originating node registers a pending task, a node
with an empty registry (every worker) discards all received chunks and never
reassembles a chunked tensor, while a compute-request is processed without
consulting the registry at all (same cache effect for any registry
contents, registry untouched). -/
theorem unknown_task_messages_ignored :
    (∀ (t : String) (c : TensorChunkMsg) (s : InferenceState),
      assocLookup s.pendingTasks t = none → handleTensorChunk t c s = s) ∧
    (∀ (t r : String) (s : InferenceState),
      assocLookup s.pendingTasks t = none → handleComputeResult t r s = s) ∧
    (∀ (t err : String) (s : InferenceState),
      assocLookup s.pendingTasks t = none → handleComputeError t err s = s) ∧
    (∀ (trace : List InferenceEvent) (s : InferenceState),
      s.pendingTasks = [] →
      (∀ e ∈ trace, ∃ t c, e = InferenceEvent.tensorChunk t c) →
      runTrace s trace = s) ∧
    (∀ (t inId : String) (dat : Option (List ℕ)) (hid : String)
        (s : InferenceState) (P : List (String × PendingTask)),
      stepEvent s (.computeRequest t inId dat hid) =
        { stepEvent { s with pendingTasks := P } (.computeRequest t inId dat hid) with
          pendingTasks := s.pendingTasks }) := by
  refine ⟨fun t c s h => ?_, fun t r s h => ?_, fun t err s h => ?_,
    runTrace_chunks_only_empty_registry, fun t inId dat hid s P => ?_⟩
  · rw [handleTensorChunk, h]
  · rw [handleComputeResult, h]
  · rw [handleComputeError, h]
  · cases dat <;> rfl

theorem unknown_task_messages_ignored_witness :
    assocLookup (initWithTask "k").pendingTasks "x" = none ∧
    handleTensorChunk "x" chunkW (initWithTask "k") = initWithTask "k" ∧
    handleComputeResult "x" "r" (initWithTask "k") = initWithTask "k" ∧
    handleComputeError "x" "e" (initWithTask "k") = initWithTask "k" ∧
    runTrace emptyInferenceState
      [.tensorChunk "x" chunkW, .tensorChunk "y" chunkW] = emptyInferenceState :=
  ⟨by decide,
   unknown_task_messages_ignored.1 "x" chunkW (initWithTask "k") (by decide),
   unknown_task_messages_ignored.2.1 "x" "r" (initWithTask "k") (by decide),
   unknown_task_messages_ignored.2.2.1 "x" "e" (initWithTask "k") (by decide),
   unknown_task_messages_ignored.2.2.2.1
     [.tensorChunk "x" chunkW, .tensorChunk "y" chunkW] emptyInferenceState
     (by decide)
     (fun e he => by
       rcases List.mem_cons.mp he with rfl | he'
       · exact ⟨"x", chunkW, rfl⟩
       · rcases List.mem_cons.mp he' with rfl | he''
         · exact ⟨"y", chunkW, rfl⟩
         · simp at he'')⟩

/-! ## C8: checksums are never validated -/

/-- Claim C8 counterexample: `handleTensorChunk` never recomputes or checks
the carried checksum — a chunk whose checksum does not match its payload
still fills its slot and reassembly still triggers, storing the corrupted
bytes in the tensor cache (nothing is treated as not-yet-received). -/
theorem checksum_mismatch_counterexample :
    computeChecksum corruptChunk.data ≠ corruptChunk.checksum ∧
    assocLookup (handleTensorChunk "k" corruptChunk (initWithTask "k")).tensorCache "t"
      = some [1, 2] := by
  decide

/-- Claim C8 amended: the receiver performs no checksum validation at all —
the result of `handleTensorChunk` does not depend on the chunk's checksum
field, so every received chunk fills its slot regardless of checksum,
reassembly triggers once every slot is filled, and no retransmission is
attempted (none exists in the protocol). -/
theorem handleTensorChunk_ignores_checksum
    (taskId : String) (c : TensorChunkMsg) (x : ℕ) (s : InferenceState) :
    handleTensorChunk taskId { c with checksum := x } s = handleTensorChunk taskId c s := rfl

/-! ## C3: chunk round-trip -/

theorem slotsOf_empty (T : ℕ) (f : ℕ → List ℕ) :
    slotsOf T f ∅ = List.replicate T none := by
  rw [slotsOf]
  simp

theorem slotsOf_set (T : ℕ) (f : ℕ → List ℕ) (P : Finset ℕ) {j : ℕ} (_hj : j < T) :
    (slotsOf T f P).set j (some (f j)) = slotsOf T f (insert j P) := by
  apply List.ext_getElem
  · simp [slotsOf]
  · intro n h1 h2
    have hn : n < T := by simpa [slotsOf] using h2
    rw [List.getElem_set]
    by_cases hjn : j = n
    · subst hjn
      rw [if_pos rfl]
      simp [slotsOf, hn]
    · rw [if_neg hjn]
      simp only [slotsOf, List.getElem_map, List.getElem_range]
      have : n ∈ insert j P ↔ n ∈ P := by
        rw [Finset.mem_insert]
        exact ⟨fun h => h.elim (fun he => absurd he.symm hjn) id, Or.inr⟩
      rw [if_congr this rfl rfl]

theorem slotsOf_all_isSome (T : ℕ) (f : ℕ → List ℕ) (P : Finset ℕ)
    (h : ∀ i < T, i ∈ P) : (slotsOf T f P).all Option.isSome = true := by
  rw [List.all_eq_true]
  intro o ho
  rcases List.mem_map.mp ho with ⟨i, hi, rfl⟩
  rw [if_pos (h i (List.mem_range.mp hi))]
  rfl

theorem slotsOf_not_all (T : ℕ) (f : ℕ → List ℕ) (P : Finset ℕ) {i : ℕ}
    (hiT : i < T) (hiP : i ∉ P) : (slotsOf T f P).all Option.isSome = false := by
  apply Bool.eq_false_iff.mpr
  intro hall
  rw [List.all_eq_true] at hall
  have hmem : (if i ∈ P then some (f i) else none) ∈ slotsOf T f P :=
    List.mem_map_of_mem _ (List.mem_range.mpr hiT)
  have h2 := hall _ hmem
  rw [if_neg hiP] at h2
  simp at h2

theorem slotsOf_map_getD (T : ℕ) (f : ℕ → List ℕ) (P : Finset ℕ)
    (h : ∀ i < T, i ∈ P) :
    (slotsOf T f P).map (fun o => o.getD []) = (List.range T).map f := by
  rw [slotsOf, List.map_map]
  apply List.map_congr_left
  intro i hi
  simp [h i (List.mem_range.mp hi)]

theorem flatten_chunks (data : List ℕ) :
    ∀ k : ℕ,
      ((List.range k).map (fun i => (data.drop (i * CHUNK_SIZE)).take CHUNK_SIZE)).flatten
        = data.take (k * CHUNK_SIZE) := by
  intro k
  induction k with
  | zero => simp
  | succ k ih =>
      rw [List.range_succ, List.map_append, List.flatten_append, ih]
      simp only [List.map_cons, List.map_nil, List.flatten_cons, List.flatten_nil,
        List.append_nil]
      rw [Nat.succ_mul, List.take_add]

theorem sendTensorChunked_flatten (data : List ℕ) :
    ((List.range ((data.length + CHUNK_SIZE - 1) / CHUNK_SIZE)).map
      (fun i => (data.drop (i * CHUNK_SIZE)).take CHUNK_SIZE)).flatten = data := by
  rw [flatten_chunks]
  apply List.take_of_length_le
  have h1 := Nat.div_add_mod (data.length + CHUNK_SIZE - 1) CHUNK_SIZE
  have h2 : (data.length + CHUNK_SIZE - 1) % CHUNK_SIZE < CHUNK_SIZE :=
    Nat.mod_lt _ (by simp only [CHUNK_SIZE]; omega)
  simp only [CHUNK_SIZE] at h1 h2 ⊢
  omega

theorem handleTensorChunk_pending {taskId : String} {c : TensorChunkMsg}
    {s : InferenceState} {pd : PendingTask}
    (hl : assocLookup s.pendingTasks taskId = some pd) :
    handleTensorChunk taskId c s =
      if (updatedSlots pd c).all Option.isSome then
        { s with
          pendingTasks := assocSet s.pendingTasks taskId
            (PendingTask.mk (assocErase pd.tensorBuffer c.tensorId)),
          tensorCache := assocSet s.tensorCache c.tensorId
            (((updatedSlots pd c).map (fun o => o.getD [])).flatten) }
      else
        { s with
          pendingTasks := assocSet s.pendingTasks taskId
            (PendingTask.mk (assocSet pd.tensorBuffer c.tensorId
              (updatedSlots pd c))) } := by
  rw [handleTensorChunk, hl]

theorem handleTensorChunk_assemble (tid taskId : String) (T : ℕ) (f : ℕ → List ℕ) :
    ∀ (rest : List TensorChunkMsg) (P : Finset ℕ) (s : InferenceState) (pd : PendingTask),
      rest ≠ [] →
      (∀ c ∈ rest, (c : TensorChunkMsg).tensorId = tid ∧ c.totalChunks = T ∧
        c.data = f c.chunkIndex ∧ c.chunkIndex < T) →
      (rest.map (fun c => c.chunkIndex)).Nodup →
      (∀ c ∈ rest, (c : TensorChunkMsg).chunkIndex ∉ P) →
      P ∪ (rest.map (fun c => c.chunkIndex)).toFinset = Finset.range T →
      assocLookup s.pendingTasks taskId = some pd →
      assocLookup pd.tensorBuffer tid
        = (if P = ∅ then none else some (slotsOf T f P)) →
      assocLookup (runTrace s (rest.map
        (fun c => InferenceEvent.tensorChunk taskId c))).tensorCache tid
        = some (((List.range T).map f).flatten) := by
  intro rest
  induction rest with
  | nil => intro P s pd hne; exact absurd rfl hne
  | cons c rest ih =>
      intro P s pd _ hfacts hnd hfresh hcover hpend hbuf
      obtain ⟨hc1, hc2, hc3, hc4⟩ := hfacts c (List.mem_cons_self _ _)
      rw [List.map_cons, List.nodup_cons] at hnd
      have hslots : updatedSlots pd c = slotsOf T f (insert c.chunkIndex P) := by
        rw [updatedSlots, hc1, hbuf]
        by_cases hP : P = ∅
        · rw [if_pos hP, hP]
          show (List.replicate c.totalChunks none).set c.chunkIndex (some c.data)
            = slotsOf T f (insert c.chunkIndex ∅)
          rw [hc2, hc3, ← slotsOf_empty T f]
          exact slotsOf_set T f ∅ hc4
        · rw [if_neg hP]
          show (slotsOf T f P).set c.chunkIndex (some c.data)
            = slotsOf T f (insert c.chunkIndex P)
          rw [hc3]
          exact slotsOf_set T f P hc4
      cases rest with
      | nil =>
          have hfull : insert c.chunkIndex P = Finset.range T := by
            rw [← hcover]
            rw [show (List.map (fun c => c.chunkIndex) [c]).toFinset
              = {c.chunkIndex} by simp]
            rw [Finset.union_comm, ← Finset.insert_eq]
          have hmem : ∀ i < T, i ∈ insert c.chunkIndex P := by
            intro i hi
            rw [hfull]
            exact Finset.mem_range.mpr hi
          show assocLookup (stepEvent s (.tensorChunk taskId c)).tensorCache tid
            = some (((List.range T).map f).flatten)
          rw [stepEvent_tensorChunk, handleTensorChunk_pending hpend,
            if_pos (by rw [hslots]; exact slotsOf_all_isSome T f _ hmem)]
          show assocLookup (assocSet s.tensorCache c.tensorId
            (((updatedSlots pd c).map (fun o => o.getD [])).flatten)) tid = _
          rw [hc1, assocLookup_assocSet_self, hslots, slotsOf_map_getD T f _ hmem]
      | cons c2 rest2 =>
          obtain ⟨_, _, _, hc24⟩ := hfacts c2 (List.mem_cons_of_mem _ (List.mem_cons_self _ _))
          have hc2ne : c2.chunkIndex ≠ c.chunkIndex := fun he =>
            hnd.1 (by rw [← he]; exact List.mem_map_of_mem _ (List.mem_cons_self _ _))
          have hc2nP : c2.chunkIndex ∉ insert c.chunkIndex P := by
            rw [Finset.mem_insert]
            rintro (he | hm)
            · exact hc2ne he
            · exact hfresh c2 (List.mem_cons_of_mem _ (List.mem_cons_self _ _)) hm
          have hnotall : (updatedSlots pd c).all Option.isSome = false := by
            rw [hslots]
            exact slotsOf_not_all T f _ hc24 hc2nP
          show assocLookup (runTrace (stepEvent s (.tensorChunk taskId c))
            ((c2 :: rest2).map (fun c => InferenceEvent.tensorChunk taskId c))).tensorCache tid
            = some (((List.range T).map f).flatten)
          rw [stepEvent_tensorChunk, handleTensorChunk_pending hpend,
            if_neg (by rw [hnotall]; exact Bool.false_ne_true)]
          apply ih (insert c.chunkIndex P) _
            (PendingTask.mk (assocSet pd.tensorBuffer c.tensorId (updatedSlots pd c)))
          · simp
          · exact fun c' hc' => hfacts c' (List.mem_cons_of_mem _ hc')
          · exact hnd.2
          · intro c' hc'
            rw [Finset.mem_insert]
            rintro (he | hm)
            · exact hnd.1 (by rw [← he]; exact List.mem_map_of_mem _ hc')
            · exact hfresh c' (List.mem_cons_of_mem _ hc') hm
          · rw [Finset.insert_union, ← Finset.union_insert, ← List.toFinset_cons,
              ← List.map_cons]
            exact hcover
          · exact assocLookup_assocSet_self _ _ _
          · show assocLookup (assocSet pd.tensorBuffer c.tensorId (updatedSlots pd c)) tid
              = _
            rw [hc1, assocLookup_assocSet_self,
              if_neg (Finset.insert_ne_empty _ _), hslots]

/-- Claim C3: splitting any non-empty byte buffer into fixed-size chunks
with `sendTensorChunked` and delivering those chunks to `handleTensorChunk`
in any permutation of the sent order yields, once all chunks are received,
a cached reassembled buffer byte-for-byte identical to the original. -/
theorem chunk_roundtrip
    (data : List ℕ) (tid taskId : String) (s : InferenceState) (pd : PendingTask)
    (arrivals : List TensorChunkMsg)
    (hdata : data ≠ [])
    (hperm : arrivals.Perm (sendTensorChunked tid data))
    (hpend : assocLookup s.pendingTasks taskId = some pd)
    (hfresh : assocLookup pd.tensorBuffer tid = none) :
    assocLookup (runTrace s (arrivals.map
      (fun c => InferenceEvent.tensorChunk taskId c))).tensorCache tid = some data := by
  have hsent : sendTensorChunked tid data
      = (List.range ((data.length + CHUNK_SIZE - 1) / CHUNK_SIZE)).map
        (fun i =>
          ({ tensorId := tid, chunkIndex := i,
             totalChunks := (data.length + CHUNK_SIZE - 1) / CHUNK_SIZE,
             data := (data.drop (i * CHUNK_SIZE)).take CHUNK_SIZE,
             checksum := computeChecksum ((data.drop (i * CHUNK_SIZE)).take CHUNK_SIZE) } :
           TensorChunkMsg)) := rfl
  set T := (data.length + CHUNK_SIZE - 1) / CHUNK_SIZE with hT
  set f : ℕ → List ℕ := fun i => (data.drop (i * CHUNK_SIZE)).take CHUNK_SIZE with hf
  have hidx : (sendTensorChunked tid data).map (fun c => c.chunkIndex)
      = List.range T := by
    rw [hsent, List.map_map]
    exact List.map_id _
  have hpermidx : (arrivals.map (fun c => c.chunkIndex)).Perm (List.range T) := by
    have h := hperm.map (fun c => c.chunkIndex)
    rwa [hidx] at h
  have hTpos : 0 < T := by
    rw [hT]
    apply Nat.div_pos
    · have h1 : 1 ≤ data.length := List.length_pos.mpr hdata
      simp only [CHUNK_SIZE]
      omega
    · simp only [CHUNK_SIZE]
      omega
  have hfacts : ∀ c ∈ arrivals, (c : TensorChunkMsg).tensorId = tid ∧
      c.totalChunks = T ∧ c.data = f c.chunkIndex ∧ c.chunkIndex < T := by
    intro c hc
    have hcs : c ∈ sendTensorChunked tid data := hperm.mem_iff.mp hc
    rw [hsent] at hcs
    rcases List.mem_map.mp hcs with ⟨i, hi, rfl⟩
    exact ⟨rfl, rfl, rfl, List.mem_range.mp hi⟩
  have hne : arrivals ≠ [] := by
    apply List.ne_nil_of_length_pos
    rw [hperm.length_eq, hsent, List.length_map, List.length_range]
    exact hTpos
  have hnd : (arrivals.map (fun c => c.chunkIndex)).Nodup :=
    hpermidx.symm.nodup (List.nodup_range T)
  have hcover : (∅ : Finset ℕ) ∪ (arrivals.map (fun c => c.chunkIndex)).toFinset
      = Finset.range T := by
    rw [Finset.empty_union, List.toFinset_eq_of_perm _ _ hpermidx]
    ext i
    simp
  have h := handleTensorChunk_assemble tid taskId T f arrivals ∅ s pd hne hfacts hnd
    (fun c _ => Finset.not_mem_empty _) hcover hpend (by rw [if_pos rfl]; exact hfresh)
  rw [h]
  congr 1
  exact sendTensorChunked_flatten data

theorem chunk_roundtrip_witness :
    ([7] : List ℕ) ≠ [] ∧
    (sendTensorChunked "t" [7]).Perm (sendTensorChunked "t" [7]) ∧
    assocLookup (initWithTask "k").pendingTasks "k" = some (PendingTask.mk []) ∧
    assocLookup (PendingTask.mk
      ([] : List (String × List (Option (List ℕ))))).tensorBuffer "t" = none ∧
    assocLookup (runTrace (initWithTask "k") ((sendTensorChunked "t" [7]).map
      (fun c => InferenceEvent.tensorChunk "k" c))).tensorCache "t" = some [7] :=
  ⟨by decide, List.Perm.refl _, by decide, by decide,
   chunk_roundtrip [7] "t" "k" (initWithTask "k") (PendingTask.mk [])
     (sendTensorChunked "t" [7]) (by decide) (List.Perm.refl _) (by decide) (by decide)⟩
